import Mathlib

/-!
Verification development for the `aws_scripts` repository.

Each Python source file is shallowly embedded as executable Lean
definitions: pure computations become Lean functions, console output
becomes lists of structured events or lines, remote API mutations become
events in a trace, and fallible remote fetches become an explicit outcome
type.  Python floats carrying currency amounts are modelled as exact
rationals (ℚ); CLI integers are modelled as ℤ.
-/


namespace EbsIopsAdjust

/-- A tag attached to an EC2 instance, as in the boto3 `instance.tags`
list of `{'Key': ..., 'Value': ...}` dictionaries. -/
structure Tag where
  key : String
  value : String
deriving DecidableEq, Repr

/-- Embeds `get_instance_name` from `ebs_iops_adjust.py` (lines 4-9).
`instance.tags` may be `None` in boto3, hence the `Option`; the Python
truthiness test `if instance_tags:` is false for both `None` and `[]`. -/
def get_instance_name (instance_tags : Option (List Tag)) : String :=
  match instance_tags with
  | none => "N/A"
  | some tags =>
    if tags.isEmpty then "N/A"
    else
      match tags.find? (fun t => t.key = "Name") with
      | some t => t.value
      | none => "N/A"

/-- An EBS volume as read inside the loop: `volume.volume_type`,
`volume.iops`, `volume.throughput` (boto3 reports throughput only for
gp3 volumes, hence the `Option`). -/
structure Volume where
  volumeId : String
  volumeType : String
  iops : Int
  throughput : Option Int
deriving DecidableEq, Repr

/-- Embeds line 37: `new_throughput = int(new_iops * 0.25) if
args.volume_type == 'gp3' else None`.  `0.25` is exactly representable
in binary floating point, so `new_iops * 0.25` is the exact rational
`new_iops / 4` (for every CLI-sized integer) and `int(...)` truncates it
toward zero: `Int.tdiv new_iops 4`. -/
def new_throughput (volume_type : String) (new_iops : Int) : Option Int :=
  if volume_type = "gp3" then some (new_iops.tdiv 4) else none

/-- The keyword arguments passed to `client.modify_volume` (lines 60-66):
`VolumeId`, `Iops`, and optionally `Throughput` (the key is added only
for gp3 volumes; `none` models an absent key). -/
structure ModifyParams where
  volumeId : String
  iops : Int
  throughput : Option Int
deriving DecidableEq, Repr

/-- One observable step of the per-volume loop body: the skip reports,
the dry-run report, and the mutating `modify_volume` API call. -/
inductive Event where
  | skipWrongType (volumeId : String) (volumeType : String)
  | skipMatching (volumeId : String)
  | dryRunReport (volumeId : String) (fromIops toIops : Int)
  | modifyCall (params : ModifyParams)
deriving DecidableEq, Repr

/-- Line 49: `current_throughput = volume.throughput if volume_type ==
'gp3' else None`. -/
def currentThroughput (v : Volume) : Option Int :=
  if v.volumeType = "gp3" then v.throughput else none

/-- The condition of line 51: the volume's IOPS equal the desired value
and, for gp3 volumes, its throughput equals the desired throughput. -/
def alreadyMatching (target : String) (new_iops : Int) (v : Volume) : Prop :=
  v.iops = new_iops ∧
    (v.volumeType ≠ "gp3" ∨ currentThroughput v = new_throughput target new_iops)

instance (target : String) (new_iops : Int) (v : Volume) :
    Decidable (alreadyMatching target new_iops v) := by
  unfold alreadyMatching; infer_instance

/-- Embeds the loop body of `ebs_iops_adjust.py` lines 47-72 for one
volume: compare the volume's type against the target, then its current
IOPS (and, for gp3, throughput) against the desired values, and either
skip, report a dry run, or issue a `modify_volume` call. -/
def processVolume (apply : Bool) (target : String) (new_iops : Int)
    (v : Volume) : List Event :=
  if v.volumeType = target then
    if alreadyMatching target new_iops v then
      [.skipMatching v.volumeId]
    else if apply then
      [.modifyCall
        { volumeId := v.volumeId
          iops := new_iops
          throughput :=
            if v.volumeType = "gp3" then new_throughput target new_iops else none }]
    else
      [.dryRunReport v.volumeId v.iops new_iops]
  else
    [.skipWrongType v.volumeId v.volumeType]

/-- The whole reconciliation pass (lines 40-72) over the volumes attached
to the tag-matched instances, with the instance/device nesting flattened
to the list of volumes it visits. -/
def runReconciler (apply : Bool) (target : String) (new_iops : Int)
    (vols : List Volume) : List Event :=
  vols.flatMap (processVolume apply target new_iops)

/-- The `modify_volume` calls issued during a run, in order. -/
def modifyCalls (events : List Event) : List ModifyParams :=
  events.filterMap fun e =>
    match e with
    | .modifyCall p => some p
    | _ => none

/-- Provider semantics of a successful `modify_volume` call on a single
volume: when the volume is the one named in the call it gets the
requested `Iops`, and the requested `Throughput` when that key was sent;
any other volume is untouched. -/
def applyOneVol (v : Volume) (p : ModifyParams) : Volume :=
  if v.volumeId = p.volumeId then
    { v with
      iops := p.iops
      throughput :=
        match p.throughput with
        | some t => some t
        | none => v.throughput }
  else v

/-- A successful `modify_volume` call applied to the whole volume set. -/
def applyModify (vols : List Volume) (p : ModifyParams) : List Volume :=
  vols.map (applyOneVol · p)

/-- The volume set after a run: every `modify_volume` call the run issued,
applied in order. -/
def stateAfterRun (apply : Bool) (target : String) (new_iops : Int)
    (vols : List Volume) : List Volume :=
  (modifyCalls (runReconciler apply target new_iops vols)).foldl applyModify vols

/-- The shape shared by every `modify_volume` call a run issues. -/
def goodCall (target : String) (n : Int) (p : ModifyParams) : Prop :=
  p.iops = n ∧
    p.throughput = (if target = "gp3" then new_throughput target n else none)

end EbsIopsAdjust

namespace AwsBilling

/-- One metric entry of a group: `{'Amount': ..., 'Unit': ...}`.  Python
float amounts are modelled as exact rationals. -/
structure MetricVal where
  amount : ℚ
  unit : String

/-- One element of a time bucket's `Groups` list: its `Keys` (exactly one
service name under the `SERVICE` grouping) and its `Metrics` mapping.
The mapping is total, as every requested metric is present in a billing
response. -/
structure Group where
  keys : List String
  metrics : String → MetricVal

/-- One element of `ResultsByTime`: a time bucket with its `Groups`. -/
structure TimeResult where
  groups : List Group

/-- The per-service accumulator value: the metric sums so far plus the
`'Unit'` entry recorded at insertion time. -/
structure ServiceAgg where
  vals : String → ℚ
  unit : String

/-- The body of the inner loop of `aggregate_billing_data`
(`aws_billing.py` lines 51-59) for one group: insert the service with
zeroed metrics and the unit of the first requested metric if it is new,
then add each requested metric's amount.  The insertion-ordered dict is
an association list with unique keys. -/
def addGroup (metrics : List String) (acc : List (String × ServiceAgg))
    (g : Group) : List (String × ServiceAgg) :=
  let service := g.keys.headD ""
  let acc' :=
    if acc.any (fun e => e.1 = service) then acc
    else acc ++ [(service, ⟨fun _ => 0, (g.metrics (metrics.headD "")).unit⟩)]
  acc'.map fun e =>
    if e.1 = service then
      (e.1,
        ⟨metrics.foldl (fun f m => Function.update f m (f m + (g.metrics m).amount))
           e.2.vals,
         e.2.unit⟩)
    else e

/-- Embeds `aggregate_billing_data` (lines 39-61): an absent response
yields the empty list, otherwise every group of every time bucket is
folded into the per-service table.  (The `if not groups: continue` guard
is a no-op under a fold over the empty group list.) -/
def aggregate_billing_data (response : Option (List TimeResult))
    (metrics : List String) : List (String × ServiceAgg) :=
  match response with
  | none => []
  | some results =>
    results.foldl (fun acc r => r.groups.foldl (addGroup metrics) acc) []

/-- The grand-total accumulator built by the loop of `print_billing_data`
(lines 64-76): starts at zero for every metric and adds every service's
amount for each requested metric. -/
def totalCosts (metrics : List String) (agg : List (String × ServiceAgg)) :
    String → ℚ :=
  agg.foldl
    (fun t e => metrics.foldl (fun t' m => Function.update t' m (t' m + e.2.vals m)) t)
    (fun _ => 0)

/-- One record of the `data` list built in `print_billing_data`. -/
structure Record where
  service : String
  unit : String
  vals : String → ℚ

/-- The `data` list of `print_billing_data` (lines 67-76). -/
def buildRecords (agg : List (String × ServiceAgg)) : List Record :=
  agg.map fun e => ⟨e.1, e.2.unit, e.2.vals⟩

/-- One line of the console report printed by `print_billing_data`
(lines 88-98), with the exact rational amount that the `:.2f` format
would render. -/
inductive ConsoleLine where
  | periodHeader (startDate endDate : String)
  | serviceHeader (service : String)
  | metricLine (metric : String) (amount : ℚ) (unit : String)
  | totalsHeader
  | totalLine (metric : String) (amount : ℚ) (unit : String)

/-- Embeds the console branch of `print_billing_data` (lines 88-98),
including the guarded first-record unit lookup
`data[0]['Unit'] if data else 'USD'` of line 97. -/
def consoleReport (agg : List (String × ServiceAgg)) (metrics : List String)
    (startDate endDate : String) : List ConsoleLine :=
  let data := buildRecords agg
  let totals := totalCosts metrics agg
  ConsoleLine.periodHeader startDate endDate ::
    (data.flatMap fun r =>
      ConsoleLine.serviceHeader r.service ::
        metrics.map fun m => ConsoleLine.metricLine m (r.vals m) r.unit) ++
    ConsoleLine.totalsHeader ::
      metrics.map (fun m =>
        ConsoleLine.totalLine m (totals m)
          (match data with
           | [] => "USD"
           | r :: _ => r.unit))

/-- How one attempt to fetch billing data can end, covering the three
`except` arms of `get_billing_data` (lines 8-35). -/
inductive FetchOutcome where
  | ok (results : List TimeResult)
  | noCredentials
  | dataUnavailable
  | otherError (msg : String)

/-- Embeds `get_billing_data` (lines 8-37): the response on success, and
`None` plus exactly one printed diagnostic for each caught exception. -/
def get_billing_data : FetchOutcome → Option (List TimeResult) × List String
  | .ok r => (some r, [])
  | .noCredentials =>
    (none, ["AWS credentials not found. Please configure your AWS credentials."])
  | .dataUnavailable =>
    (none, ["Cost and usage data is not yet available for the specified period."])
  | .otherError e => (none, ["An error occurred: " ++ e])

/-- The observable actions of the `__main__` pipeline, at the granularity
the error-handling claims need. -/
inductive MainAction where
  | usageError (msg : String)
  | fetchCall
  | writeFile (path : String) (format : String)
  | fileWrittenMsg (path : String)
  | unsupportedFormatMsg (format : String)
  | consoleOutput (lines : List ConsoleLine)
  | attributeFault

/-- Python truthiness of an optional string: `None` and `''` are falsy. -/
def truthy (o : Option String) : Bool := (o.getD "") ≠ ""

/-- The output branch of `print_billing_data` (lines 78-98) at action
granularity: the file path selects CSV/JSON writing (with
`output_format.lower()` faulting on an absent format, line 79), otherwise
the console report is printed. -/
def print_billing_actions (agg : List (String × ServiceAgg))
    (metrics : List String) (startDate endDate : String)
    (outputFile outputFormat : Option String) : List MainAction :=
  if truthy outputFile then
    match outputFormat with
    | none => [.attributeFault]
    | some fmt =>
      if fmt.toLower = "csv" then [.writeFile (outputFile.getD "") "csv",
                                   .fileWrittenMsg (outputFile.getD "")]
      else if fmt.toLower = "json" then [.writeFile (outputFile.getD "") "json",
                                         .fileWrittenMsg (outputFile.getD "")]
      else [.unsupportedFormatMsg fmt]
  else [.consoleOutput (consoleReport agg metrics startDate endDate)]

/-- The CLI arguments the `__main__` block uses past date handling. -/
structure Args where
  metrics : List String
  startDate : String
  endDate : String
  outputFile : Option String
  outputFormat : Option String

/-- Embeds the tail of the `__main__` block (lines 173-178): the
`--output-format` validation (`parser.error` terminates the process, so
nothing follows it), then the fetch, the aggregation, and the output. -/
def billingMain (args : Args) (outcome : FetchOutcome) : List MainAction :=
  if truthy args.outputFile && !truthy args.outputFormat then
    [.usageError "--output-format is required when --output-file is specified."]
  else
    MainAction.fetchCall ::
      print_billing_actions
        (aggregate_billing_data (get_billing_data outcome).1 args.metrics)
        args.metrics args.startDate args.endDate
        args.outputFile args.outputFormat

/-- The value the aggregation table associates to service `s` and metric
`m` (0 when the service is absent). -/
def valsAt (acc : List (String × ServiceAgg)) (s m : String) : ℚ :=
  match acc.find? (fun e => e.1 = s) with
  | some e => e.2.vals m
  | none => 0

/-- Reference sum: the amounts of metric `m` for service `s` across the
groups of one time bucket. -/
def bucketSum (gs : List Group) (s m : String) : ℚ :=
  (gs.map fun g => if g.keys.headD "" = s then (g.metrics m).amount else 0).sum

/-- Reference sum: the amounts of metric `m` for service `s` across all
time buckets of a response. -/
def groupSum (results : List TimeResult) (s m : String) : ℚ :=
  (results.map fun r => bucketSum r.groups s m).sum

/-- The spec's end-to-end scenario: two time buckets, each holding one
group for service `EC2` with `UnblendedCost` amounts 10.00 and 5.50. -/
def ec2Scenario : List TimeResult :=
  [⟨[⟨["EC2"], fun _ => ⟨10, "USD"⟩⟩]⟩,
   ⟨[⟨["EC2"], fun _ => ⟨11 / 2, "USD"⟩⟩]⟩]

end AwsBilling

namespace Ec2CostEstimate

/-- A tag entry of an RDS instance's `TagList`. -/
structure RdsTag where
  key : String
  value : String
deriving DecidableEq, Repr

/-- A database instance as returned by `describe_db_instances`, with the
fields `get_running_rds_instances` reads. -/
structure DbInstance where
  identifier : String
  status : String
  tagList : List RdsTag
deriving DecidableEq, Repr

/-- Embeds `get_running_rds_instances` from `ec2_cost_estimate.py`
(lines 94-111).  Tag filters arrive pre-split into (key, value) pairs
(the code splits each `KEY=VALUE` string inside the loop); `if tags:` is
false for `None` and for an empty list.  The `break` on line 108 exits
only the innermost loop over the filters, so the instance is appended
once per tag of its `TagList` that matches at least one filter. -/
def get_running_rds_instances (tags : Option (List (String × String)))
    (described : List DbInstance) : List DbInstance :=
  let instances := described.filter fun i => i.status = "available"
  match tags with
  | none => instances
  | some ts =>
    if ts.isEmpty then instances
    else
      instances.flatMap fun inst =>
        (inst.tagList.filter fun ti =>
          ts.any fun t => ti.key = t.1 ∧ ti.value = t.2).map fun _ => inst

/-- One server-side filter dictionary passed to `ec2.instances.filter`. -/
structure Filter where
  name : String
  values : List String
deriving DecidableEq, Repr

/-- Embeds the filter construction of `get_running_instances` (lines
31-43): the running-state filter plus one tag filter per `KEY=VALUE`
pair, all appended to the single `Filters` list, which the EC2 API
combines conjunctively. -/
def get_running_instances_filters (tags : Option (List (String × String))) :
    List Filter :=
  let base : List Filter := [⟨"instance-state-name", ["running"]⟩]
  match tags with
  | none => base
  | some ts =>
    if ts.isEmpty then base
    else base ++ ts.map fun t => ⟨"tag:" ++ t.1, [t.2]⟩

/-- Embeds `estimate_ec2_monthly_cost` (lines 46-53): the pricing dict
as an association list with exact rational hourly prices, the result
paired with the diagnostic lines printed to stderr. -/
def estimate_ec2_monthly_cost (instance_type : String)
    (instance_prices : List (String × ℚ)) : ℚ × List String :=
  match instance_prices.find? (fun e => e.1 = instance_type) with
  | some e => (e.2 * 24 * 30, [])
  | none =>
    (0, ["Error: Instance type " ++ instance_type ++ " not found in instance_prices."])

end Ec2CostEstimate

namespace EbsIopsAdjust

theorem modifyCalls_append (a b : List Event) :
    modifyCalls (a ++ b) = modifyCalls a ++ modifyCalls b := by
  simp [modifyCalls, List.filterMap_append]

theorem modifyCalls_processVolume_false (target : String) (n : Int) (v : Volume) :
    modifyCalls (processVolume false target n v) = [] := by
  unfold processVolume
  split <;> (try split) <;> simp [modifyCalls]

/-- Truncating division by 4 agrees with the spec's phrasing
`iops * 25 / 100 rounded toward zero`. -/
theorem tdiv_four_eq_mul25_tdiv_100 (n : Int) : n.tdiv 4 = (n * 25).tdiv 100 := by
  have key : ∀ m : Nat, ((m : Int)).tdiv 4 = (((m : Int)) * 25).tdiv 100 := by
    intro m
    have h1 : ((m : Int)) * 25 = ((m * 25 : Nat) : Int) := by push_cast; ring
    have h4 : (4 : Int) = ((4 : Nat) : Int) := rfl
    have h100 : (100 : Int) = ((100 : Nat) : Int) := rfl
    rw [h1, h4, h100, ← Int.ofNat_tdiv, ← Int.ofNat_tdiv]
    congr 1
    rw [Nat.mul_comm m 25, show (100 : Nat) = 25 * 4 from rfl]
    exact (Nat.mul_div_mul_left m 4 (by norm_num)).symm
  rcases n with m | m
  · exact key m
  · have h2 : (Int.negSucc m) = -((m + 1 : Nat) : Int) := rfl
    rw [h2, Int.neg_tdiv, neg_mul, Int.neg_tdiv, key (m + 1)]

/-- Any `modify_volume` call produced by the loop body comes from a
volume of the target type and carries exactly the desired IOPS and, for
gp3 targets, the computed throughput. -/
theorem mem_modifyCalls_processVolume (apply : Bool) (target : String) (n : Int)
    (v : Volume) (p : ModifyParams)
    (hp : p ∈ modifyCalls (processVolume apply target n v)) :
    v.volumeType = target ∧ apply = true ∧
      p = { volumeId := v.volumeId, iops := n,
            throughput := if target = "gp3" then new_throughput target n else none } := by
  unfold processVolume at hp
  split at hp
  case isTrue hty =>
    split at hp
    · simp [modifyCalls] at hp
    · split at hp
      case isTrue happly =>
        simp [modifyCalls] at hp
        subst hp
        exact ⟨hty, happly, by rw [hty]⟩
      case isFalse => simp [modifyCalls] at hp
  case isFalse => simp [modifyCalls] at hp

theorem mem_modifyCalls_runReconciler (apply : Bool) (target : String) (n : Int)
    (vols : List Volume) (p : ModifyParams)
    (hp : p ∈ modifyCalls (runReconciler apply target n vols)) :
    ∃ v ∈ vols, p ∈ modifyCalls (processVolume apply target n v) := by
  induction vols with
  | nil => simp [runReconciler, modifyCalls] at hp
  | cons v vs ih =>
    rw [runReconciler, List.flatMap_cons, modifyCalls_append] at hp
    rcases List.mem_append.mp hp with h | h
    · exact ⟨v, List.mem_cons_self .., h⟩
    · obtain ⟨w, hw, hwp⟩ := ih h
      exact ⟨w, List.mem_cons_of_mem _ hw, hwp⟩

theorem goodCall_of_mem_run (apply : Bool) (target : String) (n : Int)
    (vols : List Volume) (p : ModifyParams)
    (hp : p ∈ modifyCalls (runReconciler apply target n vols)) :
    goodCall target n p := by
  obtain ⟨v, _, hpv⟩ := mem_modifyCalls_runReconciler apply target n vols p hp
  obtain ⟨_, _, hpeq⟩ := mem_modifyCalls_processVolume apply target n v p hpv
  subst hpeq
  exact ⟨rfl, rfl⟩

/-- A mismatching volume of the target type contributes a call bearing
its own volume id. -/
theorem call_exists_of_mismatch (target : String) (n : Int) (vols : List Volume)
    (v : Volume) (hv : v ∈ vols) (hty : v.volumeType = target)
    (hmis : ¬ alreadyMatching target n v) :
    ∃ p ∈ modifyCalls (runReconciler true target n vols), p.volumeId = v.volumeId := by
  refine ⟨{ volumeId := v.volumeId, iops := n,
            throughput := if v.volumeType = "gp3" then new_throughput target n else none },
          ?_, rfl⟩
  unfold runReconciler modifyCalls
  rw [List.mem_filterMap]
  refine ⟨.modifyCall _, ?_, rfl⟩
  rw [List.mem_flatMap]
  refine ⟨v, hv, ?_⟩
  unfold processVolume
  rw [if_pos hty, if_neg hmis, if_pos rfl]
  exact List.mem_singleton.mpr rfl

theorem applyOneVol_volumeId (v : Volume) (p : ModifyParams) :
    (applyOneVol v p).volumeId = v.volumeId := by
  unfold applyOneVol; split <;> rfl

theorem applyOneVol_volumeType (v : Volume) (p : ModifyParams) :
    (applyOneVol v p).volumeType = v.volumeType := by
  unfold applyOneVol; split <;> rfl

/-- A good call either leaves a volume untouched or leaves it matching;
a good call addressed to the volume always leaves it matching. -/
theorem applyOneVol_matching (target : String) (n : Int) (v : Volume)
    (p : ModifyParams) (hty : v.volumeType = target) (hg : goodCall target n p) :
    (alreadyMatching target n v → alreadyMatching target n (applyOneVol v p)) ∧
    (v.volumeId = p.volumeId → alreadyMatching target n (applyOneVol v p)) := by
  obtain ⟨hgi, hgt⟩ := hg
  unfold applyOneVol
  split
  case isTrue hid =>
    constructor <;> intro _ <;>
    · refine ⟨hgi, ?_⟩
      by_cases hgp : v.volumeType = "gp3"
      · right
        rw [hgt, if_pos (hty ▸ hgp)]
        unfold new_throughput
        rw [if_pos (hty ▸ hgp)]
        simp [currentThroughput, hgp]
      · left; exact hgp
  case isFalse hid =>
    exact ⟨id, fun h => absurd h hid⟩

theorem foldl_applyOneVol_volumeType (ps : List ModifyParams) (v : Volume) :
    (ps.foldl applyOneVol v).volumeType = v.volumeType := by
  induction ps generalizing v with
  | nil => rfl
  | cons p ps ih => rw [List.foldl_cons, ih, applyOneVol_volumeType]

theorem foldl_applyOneVol_volumeId (ps : List ModifyParams) (v : Volume) :
    (ps.foldl applyOneVol v).volumeId = v.volumeId := by
  induction ps generalizing v with
  | nil => rfl
  | cons p ps ih => rw [List.foldl_cons, ih, applyOneVol_volumeId]

/-- Folding good calls over a target-type volume that is either already
matching or addressed by one of the calls leaves it matching. -/
theorem foldl_applyOneVol_matching (target : String) (n : Int)
    (ps : List ModifyParams) (v : Volume)
    (hgood : ∀ p ∈ ps, goodCall target n p) (hty : v.volumeType = target)
    (h : alreadyMatching target n v ∨ ∃ p ∈ ps, p.volumeId = v.volumeId) :
    alreadyMatching target n (ps.foldl applyOneVol v) := by
  induction ps generalizing v with
  | nil =>
    rcases h with h | ⟨p, hp, _⟩
    · exact h
    · exact absurd hp (List.not_mem_nil p)
  | cons p ps ih =>
    rw [List.foldl_cons]
    have hgp : goodCall target n p := hgood p (List.mem_cons_self ..)
    have hty' : (applyOneVol v p).volumeType = target := by
      rw [applyOneVol_volumeType]; exact hty
    apply ih _ (fun q hq => hgood q (List.mem_cons_of_mem _ hq)) hty'
    rcases h with h | ⟨q, hq, hqid⟩
    · exact Or.inl ((applyOneVol_matching target n v p hty hgp).1 h)
    · rcases List.mem_cons.mp hq with rfl | hq'
      · exact Or.inl ((applyOneVol_matching target n v q hty hgp).2 hqid.symm)
      · exact Or.inr ⟨q, hq', by rw [applyOneVol_volumeId]; exact hqid⟩

theorem foldl_applyModify_eq_map (ps : List ModifyParams) (vols : List Volume) :
    ps.foldl applyModify vols = vols.map (fun v => ps.foldl applyOneVol v) := by
  induction ps generalizing vols with
  | nil => simp
  | cons p ps ih =>
    rw [List.foldl_cons, ih, applyModify, List.map_map]
    rfl

/-- When every target-type volume already matches, the apply-mode run
issues no `modify_volume` call. -/
theorem run_no_calls_of_all_matching (target : String) (n : Int)
    (vols : List Volume)
    (h : ∀ v ∈ vols, v.volumeType = target → alreadyMatching target n v) :
    modifyCalls (runReconciler true target n vols) = [] := by
  induction vols with
  | nil => rfl
  | cons v vs ih =>
    rw [runReconciler, List.flatMap_cons, modifyCalls_append]
    have h1 : modifyCalls (processVolume true target n v) = [] := by
      unfold processVolume
      by_cases hty : v.volumeType = target
      · rw [if_pos hty, if_pos (h v (List.mem_cons_self ..) hty)]
        simp [modifyCalls]
      · rw [if_neg hty]; simp [modifyCalls]
    rw [h1, List.nil_append]
    exact ih fun w hw => h w (List.mem_cons_of_mem _ hw)

/-- C1: when the apply flag is false (dry-run mode) the reconciler issues
no `modify_volume` call for any volume, and a mismatching volume of the
target type produces exactly a dry-run report of the intended change. -/
theorem dry_run_mode_issues_no_modify_calls (target : String) (new_iops : Int)
    (vols : List Volume) (v : Volume)
    (hty : v.volumeType = target)
    (hmis : ¬ alreadyMatching target new_iops v) :
    modifyCalls (runReconciler false target new_iops vols) = [] ∧
    processVolume false target new_iops v =
      [.dryRunReport v.volumeId v.iops new_iops] := by
  constructor
  · induction vols with
    | nil => rfl
    | cons w ws ih =>
      rw [runReconciler, List.flatMap_cons, modifyCalls_append,
        modifyCalls_processVolume_false, List.nil_append]
      exact ih
  · unfold processVolume
    rw [if_pos hty, if_neg hmis]
    rfl

/-- Witness for C1: the spec's scenario, one io2 volume at 1000 IOPS with
desired 3000 in dry-run mode. -/
theorem dry_run_mode_issues_no_modify_calls_witness :
    modifyCalls (runReconciler false "io2" 3000 [⟨"vol-1", "io2", 1000, none⟩]) = [] ∧
    processVolume false "io2" 3000 ⟨"vol-1", "io2", 1000, none⟩ =
      [.dryRunReport "vol-1" 1000 3000] :=
  dry_run_mode_issues_no_modify_calls "io2" 3000 [⟨"vol-1", "io2", 1000, none⟩]
    ⟨"vol-1", "io2", 1000, none⟩ rfl (by decide)

/-- C2: every `modify_volume` call carries throughput equal to
`iops * 25 / 100` truncated toward zero when the target type is gp3, and
no throughput field at all when the target type is io1 or io2. -/
theorem modify_call_throughput_policy (apply : Bool) (target : String) (n : Int)
    (vols : List Volume) (p : ModifyParams)
    (hp : p ∈ modifyCalls (runReconciler apply target n vols)) :
    (target = "gp3" → p.throughput = some ((n * 25).tdiv 100)) ∧
    (target = "io1" ∨ target = "io2" → p.throughput = none) := by
  obtain ⟨_, hgt⟩ := goodCall_of_mem_run apply target n vols p hp
  constructor
  · intro hgp
    rw [hgt, if_pos hgp]
    unfold new_throughput
    rw [if_pos hgp, tdiv_four_eq_mul25_tdiv_100]
  · intro hio
    rw [hgt]
    rcases hio with h | h <;> subst h <;> rfl

/-- Witness for C2: a gp3 run at 3000 desired IOPS issues a call whose
throughput is 750. -/
theorem modify_call_throughput_policy_witness :
    (⟨"vol-2", 3000, some 750⟩ : ModifyParams) ∈
      modifyCalls (runReconciler true "gp3" 3000 [⟨"vol-2", "gp3", 1000, some 125⟩]) ∧
    (⟨"vol-2", 3000, some 750⟩ : ModifyParams).throughput =
      some ((3000 * 25 : Int).tdiv 100) := by
  have hp : (⟨"vol-2", 3000, some 750⟩ : ModifyParams) ∈
      modifyCalls (runReconciler true "gp3" 3000 [⟨"vol-2", "gp3", 1000, some 125⟩]) := by
    decide
  exact ⟨hp, (modify_call_throughput_policy true "gp3" 3000 _ _ hp).1 rfl⟩

/-- C3: apply mode is idempotent: a run over a volume set in which every
target-type volume already has the desired IOPS (and, for gp3, the
desired throughput) issues zero `modify_volume` calls, and a second
apply-mode run over the state left by any first run issues none either. -/
theorem apply_mode_idempotent (target : String) (n : Int) (vols : List Volume)
    (h : ∀ v ∈ vols, v.volumeType = target → alreadyMatching target n v) :
    modifyCalls (runReconciler true target n vols) = [] ∧
    ∀ vols', modifyCalls
      (runReconciler true target n (stateAfterRun true target n vols')) = [] := by
  refine ⟨run_no_calls_of_all_matching target n vols h, ?_⟩
  intro vols'
  apply run_no_calls_of_all_matching
  intro v' hv' hty'
  rw [stateAfterRun, foldl_applyModify_eq_map] at hv'
  obtain ⟨v, hv, rfl⟩ := List.mem_map.mp hv'
  have htyv : v.volumeType = target := by
    rw [foldl_applyOneVol_volumeType] at hty'; exact hty'
  have hgood : ∀ p ∈ modifyCalls (runReconciler true target n vols'),
      goodCall target n p :=
    fun p hp => goodCall_of_mem_run true target n vols' p hp
  by_cases hm : alreadyMatching target n v
  · exact foldl_applyOneVol_matching target n _ v hgood htyv (Or.inl hm)
  · obtain ⟨p, hp, hid⟩ := call_exists_of_mismatch target n vols' v hv htyv hm
    exact foldl_applyOneVol_matching target n _ v hgood htyv (Or.inr ⟨p, hp, hid⟩)

/-- Witness for C3: a matching gp3 volume set produces no calls, and the
state after reconciling a mismatching one is reconciled. -/
theorem apply_mode_idempotent_witness :
    modifyCalls (runReconciler true "gp3" 3000 [⟨"vol-3", "gp3", 3000, some 750⟩]) = [] ∧
    modifyCalls (runReconciler true "gp3" 3000
      (stateAfterRun true "gp3" 3000 [⟨"vol-3", "gp3", 1000, some 125⟩])) = [] := by
  have h := apply_mode_idempotent "gp3" 3000 [⟨"vol-3", "gp3", 3000, some 750⟩]
    (by decide)
  exact ⟨h.1, h.2 [⟨"vol-3", "gp3", 1000, some 125⟩]⟩

/-- C9: the instance-name lookup is total: `None` and name-less tag lists
give `N/A`, and otherwise the value of the first tag keyed `Name` is
returned. -/
theorem get_instance_name_total (instance_tags : Option (List Tag)) :
    get_instance_name instance_tags =
      (((instance_tags.getD []).find? fun t => t.key = "Name").map Tag.value).getD
        "N/A" := by
  cases instance_tags with
  | none => rfl
  | some tags =>
    cases tags with
    | nil => rfl
    | cons t ts =>
      cases hfind : (t :: ts).find? (fun t => t.key = "Name") with
      | none => simp [get_instance_name, hfind]
      | some u => simp [get_instance_name, hfind]

end EbsIopsAdjust

namespace AwsBilling

theorem foldl_update_count (metrics : List String) (amt : String → ℚ)
    (f : String → ℚ) (m : String) :
    (metrics.foldl (fun f' m' => Function.update f' m' (f' m' + amt m')) f) m =
      f m + (metrics.count m : ℚ) * amt m := by
  induction metrics generalizing f with
  | nil => simp
  | cons m' ms ih =>
    rw [List.foldl_cons, ih]
    by_cases h : m' = m
    · subst h
      rw [Function.update_same, List.count_cons_self]
      push_cast
      ring
    · rw [Function.update_noteq (Ne.symm h),
        List.count_cons_of_ne (fun hmm => h hmm.symm)]

theorem find?_map_of_key (acc : List (String × ServiceAgg))
    (F : String × ServiceAgg → String × ServiceAgg) (hF : ∀ e, (F e).1 = e.1)
    (s : String) :
    (acc.map F).find? (fun e => e.1 = s) =
      (acc.find? (fun e => e.1 = s)).map F := by
  induction acc with
  | nil => rfl
  | cons e es ih =>
    rw [List.map_cons]
    by_cases h : e.1 = s
    · rw [List.find?_cons_of_pos _ (by simp [hF, h]),
        List.find?_cons_of_pos _ (by simp [h])]
      rfl
    · rw [List.find?_cons_of_neg _ (by simp [hF, h]),
        List.find?_cons_of_neg _ (by simp [h]), ih]

theorem valsAt_addGroup (metrics : List String) (m : String)
    (hm : metrics.count m = 1) (acc : List (String × ServiceAgg)) (g : Group)
    (s : String) :
    valsAt (addGroup metrics acc g) s m =
      valsAt acc s m + (if g.keys.headD "" = s then (g.metrics m).amount else 0) := by
  set sv := g.keys.headD "" with hsv
  set F : String × ServiceAgg → String × ServiceAgg := fun e =>
    if e.1 = sv then
      (e.1,
        ⟨metrics.foldl (fun f m' => Function.update f m' (f m' + (g.metrics m').amount))
           e.2.vals,
         e.2.unit⟩)
    else e with hFdef
  have hAdd : addGroup metrics acc g =
      (if acc.any (fun e => e.1 = sv) then acc
       else acc ++ [(sv, ⟨fun _ => 0, (g.metrics (metrics.headD "")).unit⟩)]).map F := by
    rw [addGroup, hFdef]
  rw [hAdd]
  have hF : ∀ e, (F e).1 = e.1 := by
    intro e; rw [hFdef]; dsimp only; split <;> rfl
  have hupd : ∀ a : ServiceAgg,
      (metrics.foldl (fun f m' => Function.update f m' (f m' + (g.metrics m').amount))
        a.vals) m = a.vals m + (g.metrics m).amount := by
    intro a
    rw [foldl_update_count metrics (fun m' => (g.metrics m').amount) a.vals m, hm]
    push_cast; ring
  by_cases hany : acc.any (fun e => e.1 = sv)
  · rw [if_pos hany]
    unfold valsAt
    rw [find?_map_of_key acc F hF]
    cases hfind : acc.find? (fun e => e.1 = s) with
    | none =>
      -- the service `s` is absent: in particular `s ≠ sv`
      have hne : sv ≠ s := by
        intro hcontra
        obtain ⟨e, he, hes⟩ := List.any_eq_true.mp hany
        have := List.find?_eq_none.mp hfind e he
        simp at hes this
        exact this (hcontra ▸ hes)
      simp [hne]
    | some e =>
      have hes : e.1 = s := by
        have := List.find?_some hfind
        simpa using this
      rw [Option.map_some', hFdef]
      dsimp only
      by_cases hcase : e.1 = sv
      · rw [if_pos hcase]
        dsimp only
        rw [hupd e.2, if_pos (by rw [← hcase, hes])]
      · rw [if_neg hcase, if_neg (by intro hcontra; exact hcase (hes ▸ hcontra.symm ▸ rfl))]
        ring
  · rw [if_neg hany]
    unfold valsAt
    rw [find?_map_of_key _ F hF, List.find?_append]
    have hnone : ∀ e ∈ acc, ¬ (e.1 = sv) := by
      intro e he
      intro hcontra
      exact hany (List.any_eq_true.mpr ⟨e, he, by simp [hcontra]⟩)
    cases hfind : acc.find? (fun e => e.1 = s) with
    | none =>
      rw [Option.none_or]
      by_cases hssv : sv = s
      · rw [List.find?_cons_of_pos _ (by simp [hssv]), Option.map_some', hFdef]
        dsimp only
        rw [if_pos rfl]
        dsimp only
        rw [hupd ⟨fun _ => 0, (g.metrics (metrics.headD "")).unit⟩]
        simp [hssv]
      · rw [List.find?_cons_of_neg _ (by simp [hssv]), List.find?_nil]
        simp [hssv]
    | some e =>
      have hes : e.1 = s := by
        have := List.find?_some hfind
        simpa using this
      rw [Option.or_some, Option.map_some', hFdef]
      dsimp only
      have hne : ¬ (e.1 = sv) := hnone e (List.mem_of_find?_eq_some hfind)
      rw [if_neg hne, if_neg (by intro hcontra; exact hne (hes ▸ hcontra ▸ rfl))]
      ring

theorem valsAt_foldl_addGroup (metrics : List String) (m : String)
    (hm : metrics.count m = 1) (gs : List Group)
    (acc : List (String × ServiceAgg)) (s : String) :
    valsAt (gs.foldl (addGroup metrics) acc) s m = valsAt acc s m + bucketSum gs s m := by
  induction gs generalizing acc with
  | nil => simp [bucketSum]
  | cons g gs ih =>
    rw [List.foldl_cons, ih, valsAt_addGroup metrics m hm acc g s]
    simp only [bucketSum, List.map_cons, List.sum_cons]
    ring

theorem valsAt_aggregate (metrics : List String) (m : String)
    (hm : metrics.count m = 1) (results : List TimeResult) (s : String) :
    valsAt (aggregate_billing_data (some results) metrics) s m =
      groupSum results s m := by
  have main : ∀ (rs : List TimeResult) (acc : List (String × ServiceAgg)),
      valsAt (rs.foldl (fun acc r => r.groups.foldl (addGroup metrics) acc) acc) s m =
        valsAt acc s m + groupSum rs s m := by
    intro rs
    induction rs with
    | nil => simp [groupSum]
    | cons r rs ih =>
      intro acc
      rw [List.foldl_cons, ih, valsAt_foldl_addGroup metrics m hm]
      simp only [groupSum, List.map_cons, List.sum_cons]
      ring
  rw [aggregate_billing_data, main results []]
  simp [valsAt]

theorem keys_addGroup (metrics : List String)
    (acc : List (String × ServiceAgg)) (g : Group) :
    (addGroup metrics acc g).map Prod.fst =
      if acc.any (fun e => e.1 = g.keys.headD "") then acc.map Prod.fst
      else acc.map Prod.fst ++ [g.keys.headD ""] := by
  set sv := g.keys.headD ""
  set F : String × ServiceAgg → String × ServiceAgg := fun e =>
    if e.1 = sv then
      (e.1,
        ⟨metrics.foldl (fun f m' => Function.update f m' (f m' + (g.metrics m').amount))
           e.2.vals,
         e.2.unit⟩)
    else e with hFdef
  have hF : ∀ e, (F e).1 = e.1 := by
    intro e; rw [hFdef]; dsimp only; split <;> rfl
  have hAdd : addGroup metrics acc g =
      (if acc.any (fun e => e.1 = sv) then acc
       else acc ++ [(sv, ⟨fun _ => 0, (g.metrics (metrics.headD "")).unit⟩)]).map F := by
    rw [addGroup, hFdef]
  rw [hAdd]
  split
  · rw [List.map_map]
    exact List.map_congr_left fun e _ => hF e
  · rw [List.map_map]
    have hmc :
        (acc ++ [(sv, (⟨fun _ => 0, (g.metrics (metrics.headD "")).unit⟩ : ServiceAgg))]).map
            (Prod.fst ∘ F) =
          (acc ++ [(sv, (⟨fun _ => 0,
              (g.metrics (metrics.headD "")).unit⟩ : ServiceAgg))]).map Prod.fst :=
      List.map_congr_left fun e _ => hF e
    rw [hmc, List.map_append]
    rfl

theorem keysNodup_addGroup (metrics : List String)
    (acc : List (String × ServiceAgg)) (g : Group)
    (h : (acc.map Prod.fst).Nodup) :
    ((addGroup metrics acc g).map Prod.fst).Nodup := by
  rw [keys_addGroup]
  split
  · exact h
  case isFalse hna =>
    rw [List.nodup_append]
    refine ⟨h, List.nodup_singleton _, ?_⟩
    rw [List.disjoint_singleton]
    intro hmem
    obtain ⟨e, he, hes⟩ := List.mem_map.mp hmem
    exact hna (List.any_eq_true.mpr ⟨e, he, by simp [hes]⟩)

theorem keysNodup_aggregate (metrics : List String)
    (response : Option (List TimeResult)) :
    ((aggregate_billing_data response metrics).map Prod.fst).Nodup := by
  cases response with
  | none => exact List.nodup_nil
  | some results =>
    have inner : ∀ (gs : List Group) (acc : List (String × ServiceAgg)),
        (acc.map Prod.fst).Nodup →
        ((gs.foldl (addGroup metrics) acc).map Prod.fst).Nodup := by
      intro gs
      induction gs with
      | nil => exact fun acc h => h
      | cons g gs ih =>
        intro acc h
        exact ih _ (keysNodup_addGroup metrics acc g h)
    have outer : ∀ (rs : List TimeResult) (acc : List (String × ServiceAgg)),
        (acc.map Prod.fst).Nodup →
        ((rs.foldl (fun acc r => r.groups.foldl (addGroup metrics) acc) acc).map
          Prod.fst).Nodup := by
      intro rs
      induction rs with
      | nil => exact fun acc h => h
      | cons r rs ih =>
        intro acc h
        exact ih _ (inner r.groups acc h)
    exact outer results [] List.nodup_nil

theorem find?_eq_of_mem_nodup (acc : List (String × ServiceAgg)) (s : String)
    (d : ServiceAgg) (hnd : (acc.map Prod.fst).Nodup) (hmem : (s, d) ∈ acc) :
    acc.find? (fun e => e.1 = s) = some (s, d) := by
  induction acc with
  | nil => cases hmem
  | cons e es ih =>
    rw [List.map_cons, List.nodup_cons] at hnd
    rcases List.mem_cons.mp hmem with rfl | hmem'
    · exact List.find?_cons_of_pos _ (by simp)
    · have hne : ¬ (e.1 = s) := by
        intro h
        exact hnd.1 (h ▸ List.mem_map.mpr ⟨(s, d), hmem', rfl⟩)
    -- the head's key differs from `s`, so `find?` recurses
      rw [List.find?_cons_of_neg _ (by simp [hne])]
      exact ih hnd.2 hmem'

theorem totalCosts_eq_sum (metrics : List String) (m : String)
    (hm : metrics.count m = 1) (agg : List (String × ServiceAgg)) :
    totalCosts metrics agg m = (agg.map fun e => e.2.vals m).sum := by
  have main : ∀ (l : List (String × ServiceAgg)) (t : String → ℚ),
      (l.foldl
        (fun t e => metrics.foldl
          (fun t' m' => Function.update t' m' (t' m' + e.2.vals m')) t) t) m =
        t m + (l.map fun e => e.2.vals m).sum := by
    intro l
    induction l with
    | nil => simp
    | cons e es ih =>
      intro t
      rw [List.foldl_cons, ih, List.map_cons, List.sum_cons,
        foldl_update_count metrics (fun m' => e.2.vals m') t m, hm]
      push_cast
      ring
  rw [totalCosts, main agg fun _ => 0]
  simp

/-- C4: for every billing response and requested metric, each service's
aggregated total is the sum of that metric's amounts for that service
across all time buckets, and the grand total equals the sum over
services of those per-service totals. -/
theorem billing_grand_total_correct (results : List TimeResult)
    (metrics : List String) (m : String) (hm : m ∈ metrics)
    (hnd : metrics.Nodup) :
    (∀ s d, (s, d) ∈ aggregate_billing_data (some results) metrics →
      d.vals m = groupSum results s m) ∧
    totalCosts metrics (aggregate_billing_data (some results) metrics) m =
      ((aggregate_billing_data (some results) metrics).map fun e => e.2.vals m).sum := by
  have hc : metrics.count m = 1 := List.count_eq_one_of_mem hnd hm
  constructor
  · intro s d hmem
    have hfind := find?_eq_of_mem_nodup _ s d
      (keysNodup_aggregate metrics (some results)) hmem
    have hv := valsAt_aggregate metrics m hc results s
    rw [valsAt, hfind] at hv
    exact hv
  · exact totalCosts_eq_sum metrics m hc _

/-- Witness for C4: in the two-bucket EC2 scenario the grand total equals
the mapped sum, the EC2 service total is 15.50, and the grand total is
the same 15.50. -/
theorem billing_grand_total_correct_witness :
    totalCosts ["UnblendedCost"]
        (aggregate_billing_data (some ec2Scenario) ["UnblendedCost"]) "UnblendedCost" =
      ((aggregate_billing_data (some ec2Scenario) ["UnblendedCost"]).map
        fun e => e.2.vals "UnblendedCost").sum ∧
    groupSum ec2Scenario "EC2" "UnblendedCost" = 31 / 2 ∧
    totalCosts ["UnblendedCost"]
        (aggregate_billing_data (some ec2Scenario) ["UnblendedCost"]) "UnblendedCost" =
      31 / 2 := by
  refine ⟨(billing_grand_total_correct ec2Scenario ["UnblendedCost"] "UnblendedCost"
    (by simp) (by simp)).2, ?_, ?_⟩
  · norm_num [groupSum, bucketSum, ec2Scenario]
  · norm_num [totalCosts, aggregate_billing_data, addGroup, ec2Scenario,
      Function.update]

/-- C7: whenever the fetch ends in any of the three caught failure modes
(missing credentials, data unavailable, any other exception), the fetch
returns no response, prints exactly one diagnostic, and the aggregation
of that result is empty. -/
theorem fetch_failure_yields_empty (outcome : FetchOutcome)
    (metrics : List String) (herr : ∀ r, outcome ≠ .ok r) :
    (get_billing_data outcome).1 = none ∧
    (get_billing_data outcome).2.length = 1 ∧
    aggregate_billing_data (get_billing_data outcome).1 metrics = [] := by
  cases outcome with
  | ok r => exact absurd rfl (herr r)
  | noCredentials => exact ⟨rfl, rfl, rfl⟩
  | dataUnavailable => exact ⟨rfl, rfl, rfl⟩
  | otherError e => exact ⟨rfl, rfl, rfl⟩

/-- Witness for C7: the missing-credentials outcome. -/
theorem fetch_failure_yields_empty_witness :
    (get_billing_data .noCredentials).1 = none ∧
    (get_billing_data .noCredentials).2.length = 1 ∧
    aggregate_billing_data (get_billing_data .noCredentials).1 ["UnblendedCost"] = [] :=
  fetch_failure_yields_empty .noCredentials ["UnblendedCost"]
    (fun _ h => FetchOutcome.noConfusion h)

/-- C8: giving an output file path without an output format stops the
pipeline at the parser-level usage error, before the billing fetch; and
a file write happens only when both the path and the format are given. -/
theorem output_file_requires_format (args : Args) (outcome : FetchOutcome)
    (path : String) (hfile : args.outputFile = some path) (hpath : path ≠ "")
    (hfmt : args.outputFormat = none) :
    (billingMain args outcome =
      [.usageError "--output-format is required when --output-file is specified."] ∧
     MainAction.fetchCall ∉ billingMain args outcome) ∧
    ∀ (args' : Args) (outcome' : FetchOutcome) (p f : String),
      .writeFile p f ∈ billingMain args' outcome' →
      args'.outputFile = some p ∧ ∃ fmt, args'.outputFormat = some fmt := by
  constructor
  · have hcond : (truthy args.outputFile && !truthy args.outputFormat) = true := by
      rw [hfile, hfmt]
      simp [truthy, hpath]
    rw [billingMain, if_pos hcond]
    exact ⟨rfl, by simp⟩
  · intro args' outcome' p f hmem
    rw [billingMain] at hmem
    split at hmem
    · simp at hmem
    case isFalse hcond =>
      rcases List.mem_cons.mp hmem with h | h
      · cases h
      · unfold print_billing_actions at h
        split at h
        case isTrue htruthy =>
          obtain ⟨pathVal, hfile'⟩ : ∃ s, args'.outputFile = some s := by
            cases hof : args'.outputFile with
            | none => rw [hof] at htruthy; simp [truthy] at htruthy
            | some s => exact ⟨s, rfl⟩
          split at h
          · simp at h
          case h_2 fmt hfmt' =>
            refine ⟨?_, fmt, hfmt'⟩
            have hgetD : args'.outputFile.getD "" = pathVal := by rw [hfile']; rfl
            split at h
            · rcases List.mem_cons.mp h with h1 | h1
              · cases h1
                rw [hfile']
                rfl
              · simp at h1
            · split at h
              · rcases List.mem_cons.mp h with h1 | h1
                · cases h1
                  rw [hfile']
                  rfl
                · simp at h1
              · simp at h
        case isFalse => simp at h

/-- Witness for C8: a path with no format is a usage error with no fetch
call. -/
theorem output_file_requires_format_witness :
    billingMain ⟨["UnblendedCost"], "2024-01-01", "2024-02-01", some "out.csv", none⟩
        .noCredentials =
      [.usageError "--output-format is required when --output-file is specified."] ∧
    MainAction.fetchCall ∉
      billingMain ⟨["UnblendedCost"], "2024-01-01", "2024-02-01", some "out.csv", none⟩
        .noCredentials :=
  (output_file_requires_format
    ⟨["UnblendedCost"], "2024-01-01", "2024-02-01", some "out.csv", none⟩
    .noCredentials "out.csv" rfl (by decide) rfl).1

/-- C10: with empty aggregated data and no output file, the console
report is just the period header, the totals header, and one grand-total
line of amount 0 with the fallback unit `USD` per requested metric; the
first-record unit lookup never happens. -/
theorem empty_data_console_totals (metrics : List String)
    (startDate endDate : String) :
    consoleReport [] metrics startDate endDate =
      ConsoleLine.periodHeader startDate endDate :: ConsoleLine.totalsHeader ::
        metrics.map (fun m => ConsoleLine.totalLine m 0 "USD") := by
  rw [consoleReport]
  rfl

end AwsBilling

namespace Ec2CostEstimate

/-- C5 counterexample: an available database instance with two tags,
each matching one of two filters, is appended twice, so it is not
"included exactly once" as claimed. -/
theorem rds_filter_duplicates_counterexample :
    (get_running_rds_instances (some [("a", "1"), ("b", "2")])
        [⟨"db-1", "available", [⟨"a", "1"⟩, ⟨"b", "2"⟩]⟩]).count
      ⟨"db-1", "available", [⟨"a", "1"⟩, ⟨"b", "2"⟩]⟩ = 2 := by
  decide

/-- C5 (amended): with a nonempty filter list, an instance is included
(at least once) iff it is available and at least one of its tags matches
one of the filters — OR semantics — but it is appended once per tag that
matches some filter, so it can appear several times; the compute-side
instance filters are instead all appended to one conjunctive `Filters`
list. -/
theorem rds_filter_or_semantics (ts : List (String × String))
    (described : List DbInstance) (inst : DbInstance) (hts : ts ≠ []) :
    (inst ∈ get_running_rds_instances (some ts) described ↔
      inst ∈ described ∧ inst.status = "available" ∧
        ∃ ti ∈ inst.tagList, ∃ t ∈ ts, ti.key = t.1 ∧ ti.value = t.2) ∧
    (∀ i : DbInstance, i.status = "available" →
      get_running_rds_instances (some ts) [i] =
        (i.tagList.filter fun ti => ts.any fun t => ti.key = t.1 ∧ ti.value = t.2).map
          fun _ => i) ∧
    get_running_instances_filters (some ts) =
      ⟨"instance-state-name", ["running"]⟩ :: (ts.map fun t => ⟨"tag:" ++ t.1, [t.2]⟩) := by
  refine ⟨?_, ?_, ?_⟩
  · rw [get_running_rds_instances]
    simp only [List.isEmpty_eq_true, hts, if_false]
    rw [List.mem_flatMap]
    constructor
    · rintro ⟨x, hx, hmem⟩
      obtain ⟨ti, hti, rfl⟩ := List.mem_map.mp hmem
      have hx' := List.mem_filter.mp hx
      obtain ⟨hti', hmatch⟩ := List.mem_filter.mp hti
      refine ⟨hx'.1, by simpa using hx'.2, ti, hti', ?_⟩
      simpa using hmatch
    · rintro ⟨hd, hs, ti, hti, t, ht, hk, hv⟩
      refine ⟨inst, List.mem_filter.mpr ⟨hd, by simpa using hs⟩, ?_⟩
      refine List.mem_map.mpr ⟨ti, List.mem_filter.mpr ⟨hti, ?_⟩, rfl⟩
      simp only [List.any_eq_true]
      exact ⟨t, ht, by simp [hk, hv]⟩
  · intro i hi
    rw [get_running_rds_instances]
    simp only [List.isEmpty_eq_true, hts, if_false]
    simp [List.filter_cons, hi]
  · rw [get_running_instances_filters]
    simp only [List.isEmpty_eq_true, hts, if_false]
    rfl

/-- Witness for C5 (amended): a matching available instance is included,
a twice-matching one produces two copies, and the compute filter list
holds both tag filters. -/
theorem rds_filter_or_semantics_witness :
    ((⟨"db-1", "available", [⟨"a", "1"⟩]⟩ : DbInstance) ∈
      get_running_rds_instances (some [("a", "1"), ("b", "2")])
        [⟨"db-1", "available", [⟨"a", "1"⟩]⟩] ↔
      (⟨"db-1", "available", [⟨"a", "1"⟩]⟩ : DbInstance) ∈
          [(⟨"db-1", "available", [⟨"a", "1"⟩]⟩ : DbInstance)] ∧
        "available" = "available" ∧
        ∃ ti ∈ [(⟨"a", "1"⟩ : RdsTag)], ∃ t ∈ [("a", "1"), ("b", "2")],
          ti.key = t.1 ∧ ti.value = t.2) ∧
    get_running_instances_filters (some [("a", "1"), ("b", "2")]) =
      [⟨"instance-state-name", ["running"]⟩, ⟨"tag:" ++ "a", ["1"]⟩,
       ⟨"tag:" ++ "b", ["2"]⟩] := by
  have h := rds_filter_or_semantics [("a", "1"), ("b", "2")]
    [⟨"db-1", "available", [⟨"a", "1"⟩]⟩] ⟨"db-1", "available", [⟨"a", "1"⟩]⟩
    (by decide)
  exact ⟨h.1, h.2.2⟩

/-- C6: the monthly estimate of a compute instance is the exact hourly
price times 720 when its type is in the pricing table (with no
diagnostic), and exactly 0 with exactly one diagnostic line when it is
absent; no rounding happens before display. -/
theorem monthly_cost_formula (instance_type : String)
    (instance_prices : List (String × ℚ)) :
    (∀ e, instance_prices.find? (fun x => x.1 = instance_type) = some e →
      estimate_ec2_monthly_cost instance_type instance_prices = (e.2 * 720, [])) ∧
    (instance_prices.find? (fun x => x.1 = instance_type) = none →
      (estimate_ec2_monthly_cost instance_type instance_prices).1 = 0 ∧
      (estimate_ec2_monthly_cost instance_type instance_prices).2.length = 1) := by
  constructor
  · intro e he
    rw [estimate_ec2_monthly_cost, he]
    norm_num
    ring
  · intro hnone
    rw [estimate_ec2_monthly_cost, hnone]
    exact ⟨rfl, rfl⟩

/-- Witness for C6: a one-entry table priced 0.096/h gives 69.12/month
for the known type, and 0 plus one diagnostic for an unknown type. -/
theorem monthly_cost_formula_witness :
    estimate_ec2_monthly_cost "m5.large" [("m5.large", 96 / 1000)] =
      ((96 / 1000 : ℚ) * 720, []) ∧
    (estimate_ec2_monthly_cost "t4g.nano" [("m5.large", 96 / 1000)]).1 = 0 ∧
    (estimate_ec2_monthly_cost "t4g.nano" [("m5.large", 96 / 1000)]).2.length = 1 := by
  refine ⟨(monthly_cost_formula "m5.large" [("m5.large", 96 / 1000)]).1
    ("m5.large", 96 / 1000) rfl, ?_⟩
  exact (monthly_cost_formula "t4g.nano" [("m5.large", 96 / 1000)]).2 rfl

end Ec2CostEstimate
